import Mathlib

/-!
# Verification of `create-video.py` (Clay-Ferguson/kocreator)

A shallow embedding of the timeline-assembly and narration-caching core of
`src/create-video.py`, together with theorems settling the frozen claims
C1..C10 about it.

Modelling conventions:
* Files are modelled by their path strings.  `pathlib.Path.suffix`,
  `Path.stem`, `str.lower`, `str.strip` and `float(...)` are embedded as
  executable Lean functions on `String` (ASCII domain, which covers every
  string the program compares extensions and probe output against).
* Durations (Python `float`) are modelled as exact rationals `ℚ`; the probe
  collaborator (`ffprobe` + `get_audio_duration`) is a parameter
  `String → Option ℚ`.
* The external filesystem is modelled as existence + mtime maps (`Fs`);
  `sf.write` is `writeFile` stamping the current clock value.
* `sys.exit(1)` / a failed `assert` are modelled as `Except.error`.
-/

namespace Kocreator

/-! ## String helpers (Python semantics) -/

/-- Model of Python `str.lower` on the ASCII range (extension comparisons in
the program only involve ASCII strings). -/
def lowerString (s : String) : String :=
  String.mk (s.toList.map Char.toLower)

/-- Characters removed by Python `str.strip()` (ASCII whitespace). -/
def isPySpace (c : Char) : Bool :=
  c = ' ' || c = '\t' || c = '\n' || c = '\r' || c = '\x0b' || c = '\x0c'

/-- Model of Python `str.strip()`: drop leading and trailing whitespace. -/
def pyStrip (s : String) : String :=
  String.mk (((s.toList.dropWhile isPySpace).reverse.dropWhile isPySpace).reverse)

/-- The final path component, as a character list (Python `Path.name`). -/
def lastComponentChars (s : String) : List Char :=
  (s.toList.reverse.takeWhile (fun c => c ≠ '/')).reverse

/-- Model of Python `pathlib.Path.suffix`: the substring of the final path
component from its last dot, provided that dot is neither the first nor the
last character of the component; `""` otherwise. -/
def fileSuffix (s : String) : String :=
  let name := lastComponentChars s
  let rev := name.reverse
  let afterDot := rev.takeWhile (fun c => c ≠ '.')
  if afterDot.length = rev.length then ""
  else if afterDot.length = 0 then ""
  else if rev.length = afterDot.length + 1 then ""
  else String.mk ('.' :: afterDot.reverse)

/-- Model of Python `pathlib.Path.stem`: the final component without its
suffix. -/
def stemOf (s : String) : String :=
  let name := lastComponentChars s
  String.mk (name.take (name.length - (fileSuffix s).length))

/-- Zero padding as in the Python format spec `04d` (used for
`segment-{segment_index:04d}.mp4`). -/
def pad4 (n : Nat) : String :=
  let s := toString n
  String.mk (List.replicate (4 - s.length) '0') ++ s

/-! ## Model of Python `float(...)` on decimal literals

`get_audio_duration` parses the stripped `ffprobe` stdout with `float(value)`.
`ffprobe -show_entries format=duration` prints either a decimal literal
(`%f`-formatted, optionally signed, optional exponent) or the sentinel `N/A`;
`parsePyFloat` models `float()` on that decimal-literal domain, returning
`none` exactly when `float()` would raise `ValueError` there. -/

def digitVal (c : Char) : ℚ := ((c.toNat - '0'.toNat : Nat) : ℚ)

def digitsToRat (acc : ℚ) : List Char → ℚ
  | [] => acc
  | c :: cs => digitsToRat (acc * 10 + digitVal c) cs

def digitsToNatAcc (acc : Nat) : List Char → Nat
  | [] => acc
  | c :: cs => digitsToNatAcc (acc * 10 + (c.toNat - '0'.toNat)) cs

/-- Parse an optional exponent part (`e`/`E`, optional sign, digits).
Returns the exponent as an integer, or `none` if the remainder is not a
well-formed (possibly empty) exponent. -/
def parseExponent : List Char → Option Int
  | [] => some 0
  | e :: rest =>
    if e = 'e' ∨ e = 'E' then
      match rest with
      | '+' :: ds => if ds ≠ [] ∧ ds.all Char.isDigit then some (digitsToNatAcc 0 ds) else none
      | '-' :: ds => if ds ≠ [] ∧ ds.all Char.isDigit then some (-(digitsToNatAcc 0 ds : Int)) else none
      | ds => if ds ≠ [] ∧ ds.all Char.isDigit then some (digitsToNatAcc 0 ds) else none
    else none

/-- Parse an unsigned decimal mantissa with optional fractional part and
optional exponent. -/
def parseMantissa (cs : List Char) : Option ℚ :=
  let intPart := cs.takeWhile Char.isDigit
  let rest := cs.dropWhile Char.isDigit
  match rest with
  | '.' :: r2 =>
    let fracPart := r2.takeWhile Char.isDigit
    let rest2 := r2.dropWhile Char.isDigit
    if intPart = [] ∧ fracPart = [] then none
    else
      match parseExponent rest2 with
      | none => none
      | some e =>
        some ((digitsToRat 0 intPart + digitsToRat 0 fracPart / (10 : ℚ) ^ fracPart.length)
          * (10 : ℚ) ^ e)
  | _ =>
    if intPart = [] then none
    else
      match parseExponent rest with
      | none => none
      | some e => some (digitsToRat 0 intPart * (10 : ℚ) ^ e)

/-- Model of Python `float(value)` on the decimal-literal domain: optional
sign, then a mantissa with optional fraction and exponent.  `none` models
`ValueError`. -/
def parsePyFloat (s : String) : Option ℚ :=
  match s.toList with
  | '+' :: cs => parseMantissa cs
  | '-' :: cs => (parseMantissa cs).map Neg.neg
  | cs => parseMantissa cs

/-- Embedding of `get_audio_duration` (create-video.py lines 101-119) applied
to the captured `ffprobe` stdout:

    value = result.stdout.strip()
    if not value or value == "N/A": return None
    try: return float(value)
    except ValueError: return None
-/
def get_audio_duration (stdout : String) : Option ℚ :=
  let value := pyStrip stdout
  if value = "" then none
  else if value = "N/A" then none
  else parsePyFloat value

/-! ## The segment data model -/

/-- The two segment kinds of the spec data model: a silent fixed-duration hold
or a hold for the duration of an audio clip. -/
inductive SegKind where
  | silent : SegKind
  | audio : String → SegKind
deriving DecidableEq, Repr

/-- One renderable unit of output (spec `Segment`): kind, held image, duration
and the monotonically increasing index used to name the rendered artifact. -/
structure Segment where
  kind : SegKind
  image : String
  duration : ℚ
  index : Nat
deriving DecidableEq, Repr

/-- The rendered output path of the segment at index `i`
(`segment_dir / f"segment-{segment_index:04d}.mp4"`, line 464). -/
def segmentPath (dir : String) (i : Nat) : String :=
  dir ++ "/segment-" ++ pad4 i ++ ".mp4"

/-- A single apostrophe character (U+0027), used in the concat-list line. -/
def quoteChar : Char := Char.ofNat 39

/-- The concat-manifest line written for segment index `i`
(`cl.write(f"file '{segment_file.resolve()}'\n")`, line 499).  `segment_dir`
is modelled as an already absolute, normalized directory, so `.resolve()` is
the identity on it. -/
def manifestLine (dir : String) (i : Nat) : String :=
  "file " ++ String.singleton quoteChar ++ segmentPath dir i
    ++ String.singleton quoteChar ++ "\n"

/-- State of the segment-building loop (create-video.py lines 458-460):
`segment_index`, `current_image`, `total_duration`, plus the segments emitted
so far (the spec `Timeline`) and the concat-manifest lines written so far. -/
structure BuildState where
  segIndex : Nat
  currentImage : Option String
  totalDuration : ℚ
  segments : List Segment
  manifest : List String
deriving DecidableEq, Repr

/-- The loop's initial state: `segment_index = 0`, `current_image = None`,
`total_duration = 0.0`, nothing emitted, empty concat list. -/
def initState : BuildState :=
  { segIndex := 0, currentImage := none, totalDuration := 0
    segments := [], manifest := [] }

/-- Embedding of `f.suffix in {".mp3", ".wav"}` (exact comparison, as in lines 473/482). -/
def isAudioSuffix (f : String) : Bool :=
  fileSuffix f == ".mp3" || fileSuffix f == ".wav"

/-- Emit a `SilentHold` segment (lines 477-480 then 499-500): build the
segment at the current index, accumulate `FRAME_DURATION`, write the manifest
line, advance the index. -/
def emitSilent (d : ℚ) (dir : String) (st : BuildState) (f : String) : BuildState :=
  { segIndex := st.segIndex + 1
    currentImage := st.currentImage
    totalDuration := st.totalDuration + d
    segments := st.segments ++ [{ kind := .silent, image := f, duration := d, index := st.segIndex }]
    manifest := st.manifest ++ [manifestLine dir st.segIndex] }

/-- Emit an `AudioHeld` segment (lines 488-497 then 499-500): build the
segment holding `img` for the probed duration, accumulate it, write the
manifest line, advance the index. -/
def emitAudio (dir : String) (st : BuildState) (img f : String) (dur : ℚ) : BuildState :=
  { segIndex := st.segIndex + 1
    currentImage := st.currentImage
    totalDuration := st.totalDuration + dur
    segments := st.segments ++ [{ kind := .audio f, image := img, duration := dur, index := st.segIndex }]
    manifest := st.manifest ++ [manifestLine dir st.segIndex] }

/-- The fall-through of the loop body for a file matching neither
`f.suffix == ".png"` nor `f.suffix in {".mp3", ".wav"}`: no segment is built
and no duration accumulated, but lines 499-500 still run, writing the
manifest line and advancing the index. -/
def passThrough (dir : String) (st : BuildState) : BuildState :=
  { segIndex := st.segIndex + 1
    currentImage := st.currentImage
    totalDuration := st.totalDuration
    segments := st.segments
    manifest := st.manifest ++ [manifestLine dir st.segIndex] }

/-- Embedding of `next_file is not None and next_file.suffix in {".mp3", ".wav"}`
(line 473). -/
def nextIsAudio (next : Option String) : Bool :=
  match next with
  | some nf => isAudioSuffix nf
  | none => false

/-- One iteration of the segment-building loop (lines 463-500) on file `f`
with lookahead `next` (= `media_files[i+1]` when it exists).  `Except.error`
models the `assert current_image is not None` failing. -/
def buildStep (probe : String → Option ℚ) (d : ℚ) (dir : String)
    (st : BuildState) (f : String) (next : Option String) : Except Unit BuildState :=
  if fileSuffix f = ".png" then
    let st1 := { st with currentImage := some f }
    if nextIsAudio next then
      .ok st1
    else
      .ok (emitSilent d dir st1 f)
  else if isAudioSuffix f then
    match probe f with
    | none => .ok st
    | some dur =>
      match st.currentImage with
      | none => .error ()
      | some img => .ok (emitAudio dir st img f dur)
  else
    .ok (passThrough dir st)

/-- The lookahead available to an element whose remaining tail is `rest`,
inside a run whose after-the-end lookahead is `la`. -/
def lookaheadOf (rest : List String) (la : Option String) : Option String :=
  match rest with
  | [] => la
  | g :: _ => some g

/-- The segment-building loop over a list of files, from state `st`, where
`la` is what `media_files[i+1]` yields after the last element of the list
(`none` for a full run; `some g` when the list is an initial fragment and `g`
follows it). -/
def buildFrom (probe : String → Option ℚ) (d : ℚ) (dir : String) (la : Option String) :
    BuildState → List String → Except Unit BuildState
  | st, [] => .ok st
  | st, f :: rest =>
    match buildStep probe d dir st f (lookaheadOf rest la) with
    | .error e => .error e
    | .ok st1 => buildFrom probe d dir la st1 rest

/-- The complete segment-building pass (lines 458-500) over the resolved media
list. -/
def buildSegments (probe : String → Option ℚ) (d : ℚ) (dir : String)
    (st : BuildState) (files : List String) : Except Unit BuildState :=
  buildFrom probe d dir none st files

/-! ## Media catalog (lines 340-347, 375-388) -/

/-- Embedding of `valid_extensions = {".png", ".mp3", ".wav", ".txt"}` (line 340). -/
def validExtensions : List String := [".png", ".mp3", ".wav", ".txt"]

/-- The catalog filter of lines 343-346: a file is collected iff
`f.suffix.lower() in valid_extensions` (the `is_file` and `generated-wav`
conditions are properties of the directory scan, not of the name, and every
file the claims quantify over satisfies them). -/
def catalogued (f : String) : Bool :=
  validExtensions.contains (lowerString (fileSuffix f))

/-- Embedding of `image_count = sum(1 for f in media_files if f.suffix == ".png")`
(line 375) — note the exact, case-sensitive comparison. -/
def imageCount (files : List String) : Nat :=
  files.countP (fun f => fileSuffix f == ".png")

/-! ## Narration cache (lines 390-427 and `run_kokoro_tts`, lines 195-218) -/

/-- The filesystem facts the narration cache consults: existence and
modification time of a path.  Clock values are integers (any linearly
ordered time type works; the code only compares with `>`). -/
structure Fs where
  fileExists : String → Bool
  mtime : String → Int

/-- Writing file `p` at clock value `t` (`sf.write` in `run_kokoro_tts`):
afterwards the file exists and its mtime is `t`. -/
def writeFile (fs : Fs) (p : String) (t : Int) : Fs :=
  { fileExists := fun q => if q = p then true else fs.fileExists q
    mtime := fun q => if q = p then t else fs.mtime q }

/-- The cache path for a narration source (lines 407-408):
`wav_cache_dir / f"{f.stem}.wav"`.  All items are modelled as living in one
source directory whose cache directory is `cacheDir` (the intro/main split of
lines 401-404 picks one of two such directories by the same rule). -/
def wavPathOf (cacheDir : String) (f : String) : String :=
  cacheDir ++ "/" ++ stemOf f ++ ".wav"

/-- The cache-freshness test of lines 410-413:
`wav_path.exists() and wav_path.stat().st_mtime > f.stat().st_mtime`. -/
def cacheFresh (fs : Fs) (f wav : String) : Bool :=
  fs.fileExists wav && decide (fs.mtime f < fs.mtime wav)

/-- The narration conversion pass (lines 397-427), including the body of
`run_kokoro_tts` (lines 195-218) inlined at its call site:

* for each `.txt` file (exact suffix comparison, line 399): if the cache is
  fresh, reuse `wav_path` without synthesis; otherwise read the text, abort
  when it strips to empty (`sys.exit(1)`, line 205) or when the TTS
  collaborator returns no chunks (line 215), else synthesize and write the
  cache file at the current clock `now`;
* all other files pass through unchanged.

Returns the filesystem, the converted list (`converted_files`) and the number
of synthesis invocations, or `Except.error (message, fs)` when the run aborts
(`sys.exit` leaves the filesystem as it was).  `tts` models the Kokoro
pipeline (text to audio chunks), `contents` models `input_txt.read_text()`. -/
def convertPass (tts : String → List Int) (contents : String → String)
    (cacheDir : String) (now : Int) :
    Fs → List String → Except (String × Fs) (Fs × List String × Nat)
  | fs, [] => .ok (fs, [], 0)
  | fs, f :: rest =>
    if fileSuffix f = ".txt" then
      let wav := wavPathOf cacheDir f
      if cacheFresh fs f wav then
        match convertPass tts contents cacheDir now fs rest with
        | .error e => .error e
        | .ok (fs2, l, n) => .ok (fs2, wav :: l, n)
      else
        let text := pyStrip (contents f)
        if text = "" then .error ("Narration file is empty: " ++ f, fs)
        else if tts text = [] then .error ("No audio generated for: " ++ f, fs)
        else
          match convertPass tts contents cacheDir now (writeFile fs wav now) rest with
          | .error e => .error e
          | .ok (fs2, l, n) => .ok (fs2, wav :: l, n + 1)
    else
      match convertPass tts contents cacheDir now fs rest with
      | .error e => .error e
      | .ok (fs2, l, n) => .ok (fs2, f :: l, n)

/-! ## Derived measures used by the claims -/

/-- Number of `SilentHold` segments in a segment list. -/
def silentCountL (l : List Segment) : Nat :=
  l.countP (fun s => match s.kind with | .silent => true | .audio _ => false)

/-- Sum of the probed durations over the `AudioHeld` segments of a list. -/
def audioSumL (l : List Segment) : ℚ :=
  (l.map (fun s => match s.kind with | .silent => 0 | .audio _ => s.duration)).sum

/-- Replace a `SilentHold` segment's duration by `d2`; leave `AudioHeld`
segments unchanged. -/
def setSilentDur (d2 : ℚ) (s : Segment) : Segment :=
  match s.kind with
  | .silent => { s with duration := d2 }
  | .audio _ => s

/-- The state of a run rebased on fixed image duration `d2`: every
`SilentHold` duration becomes `d2` and the accumulated total is recomputed
accordingly.  Used to express that changing `FRAME_DURATION` changes only the
`SilentHold` contributions. -/
def retime (d2 : ℚ) (st : BuildState) : BuildState :=
  { st with segments := st.segments.map (setSilentDur d2)
            totalDuration := d2 * (silentCountL st.segments : ℚ) + audioSumL st.segments }

/-- The `AudioHeld` segments produced by a run of audio items all held
against image `img`, starting at segment index `idx`: one segment per item
that probes successfully, at consecutive indices. -/
def audioSegsFrom (probe : String → Option ℚ) (img : String) (idx : Nat) :
    List String → List Segment
  | [] => []
  | a :: rest =>
    match probe a with
    | none => audioSegsFrom probe img idx rest
    | some dur => { kind := .audio a, image := img, duration := dur, index := idx }
        :: audioSegsFrom probe img (idx + 1) rest

/-- Folding the loop body over a run of audio items while `current_image`
stays `img`: each successfully probed item emits an `AudioHeld` segment,
failing items are skipped. -/
def runAudios (probe : String → Option ℚ) (dir : String) (img : String) :
    BuildState → List String → BuildState
  | st, [] => st
  | st, a :: rest =>
    match probe a with
    | none => runAudios probe dir img st rest
    | some dur => runAudios probe dir img (emitAudio dir st img a dur) rest

/-! ## Concrete collaborators used in the closed theorems -/

/-- Probe collaborator of spec scenario A: `002.mp3` probes to 5.0 seconds,
nothing else probes. -/
def probeA : String → Option ℚ :=
  fun f => if f = "002.mp3" then some 5 else none

/-- Probe collaborator with one broken and one working audio file. -/
def probeBad : String → Option ℚ :=
  fun f => if f = "good.mp3" then some 3 else none

/-- Probe collaborator for the consecutive-audio scenario. -/
def probeRun : String → Option ℚ :=
  fun f => if f = "002.mp3" then some 5 else if f = "003.mp3" then some 3 else none

/-- A filesystem with no files at all (every stat fails; `exists` is false,
mtimes irrelevant). -/
def emptyFs : Fs :=
  { fileExists := fun _ => false, mtime := fun _ => 0 }

/-- A filesystem holding exactly a fresh cache entry for `002.txt` in
`generated-wav`: the cached wav exists with mtime 1, the source has mtime 0. -/
def freshCacheFs : Fs :=
  { fileExists := fun p => p = wavPathOf "generated-wav" "002.txt"
    mtime := fun p => if p = wavPathOf "generated-wav" "002.txt" then 1 else 0 }

/-- Text contents in which `002.txt` holds only whitespace and every other
file holds the word `hello`. -/
def contentsEmpty002 : String → String :=
  fun f => if f = "002.txt" then " \n " else "hello"

/-- A TTS collaborator that returns one audio chunk for any text. -/
def ttsOne : String → List Int := fun _ => [1]

/-- A probe collaborator whose raw `ffprobe` stdout is always the sentinel
`N/A`. -/
def probeOutNA : String → String := fun _ => "N/A"

/-- The final build state of spec scenario A
(`[001.png, 002.mp3, 003.png]`, `002.mp3` probing to 5 s, fixed duration 2 s). -/
def stA : BuildState :=
  { segIndex := 2, currentImage := some "003.png", totalDuration := 7
    segments := [{ kind := .audio "002.mp3", image := "001.png", duration := 5, index := 0 },
                 { kind := .silent, image := "003.png", duration := 2, index := 1 }]
    manifest := [manifestLine "/segs" 0, manifestLine "/segs" 1] }

/-- A loop state reached after one emitted silent segment (used to exercise
the fall-through iteration at index 1). -/
def stC10 : BuildState :=
  { segIndex := 1, currentImage := some "001.png", totalDuration := 2
    segments := [{ kind := .silent, image := "001.png", duration := 2, index := 0 }]
    manifest := [manifestLine "/segs" 0] }

/-!
# Theorems

First the structural lemmas about the loop, then one theorem per claim
(with its witness or counterexample where required).
-/

/-- An audio suffix is never the image suffix. -/
theorem isAudioSuffix_ne_png {f : String} (h : isAudioSuffix f = true) :
    fileSuffix f ≠ ".png" := by
  intro hpng
  simp [isAudioSuffix, hpng] at h

/-- Unfolding the loop on an image item whose successor is an audio item:
`current_image` is set and no segment is emitted (lines 467-475). -/
theorem buildFrom_png_suppress {probe : String → Option ℚ} {d : ℚ} {dir : String}
    {la : Option String} {st : BuildState} {f : String} {rest : List String}
    (hf : fileSuffix f = ".png") (hnext : nextIsAudio (lookaheadOf rest la) = true) :
    buildFrom probe d dir la st (f :: rest)
      = buildFrom probe d dir la { st with currentImage := some f } rest := by
  simp [buildFrom, buildStep, hf, hnext]

/-- Unfolding the loop on an image item whose successor is absent or not an
audio item: a `SilentHold` segment is emitted (lines 477-480, 499-500). -/
theorem buildFrom_png_emit {probe : String → Option ℚ} {d : ℚ} {dir : String}
    {la : Option String} {st : BuildState} {f : String} {rest : List String}
    (hf : fileSuffix f = ".png") (hnext : nextIsAudio (lookaheadOf rest la) = false) :
    buildFrom probe d dir la st (f :: rest)
      = buildFrom probe d dir la (emitSilent d dir { st with currentImage := some f } f) rest := by
  simp [buildFrom, buildStep, hf, hnext]

/-- Unfolding the loop on an audio item whose probe fails: the iteration is a
no-op (lines 483-486). -/
theorem buildFrom_audio_skip {probe : String → Option ℚ} {d : ℚ} {dir : String}
    {la : Option String} {st : BuildState} {f : String} {rest : List String}
    (hf : isAudioSuffix f = true) (hp : probe f = none) :
    buildFrom probe d dir la st (f :: rest) = buildFrom probe d dir la st rest := by
  simp [buildFrom, buildStep, isAudioSuffix_ne_png hf, hf, hp]

/-- Unfolding the loop on an audio item that probes successfully while an
image is current: an `AudioHeld` segment is emitted (lines 488-500). -/
theorem buildFrom_audio_emit {probe : String → Option ℚ} {d : ℚ} {dir : String}
    {la : Option String} {st : BuildState} {f img : String} {dur : ℚ} {rest : List String}
    (hf : isAudioSuffix f = true) (hp : probe f = some dur)
    (hc : st.currentImage = some img) :
    buildFrom probe d dir la st (f :: rest)
      = buildFrom probe d dir la (emitAudio dir st img f dur) rest := by
  simp [buildFrom, buildStep, isAudioSuffix_ne_png hf, hf, hp, hc]

/-- Unfolding the loop on a file matching neither branch: lines 499-500 still
run (manifest line, index bump) but nothing is rendered. -/
theorem buildFrom_other {probe : String → Option ℚ} {d : ℚ} {dir : String}
    {la : Option String} {st : BuildState} {f : String} {rest : List String}
    (h1 : fileSuffix f ≠ ".png") (h2 : isAudioSuffix f = false) :
    buildFrom probe d dir la st (f :: rest)
      = buildFrom probe d dir la (passThrough dir st) rest := by
  simp [buildFrom, buildStep, h1, h2]

/-- Exhaustive description of the successful outcomes of one loop iteration. -/
theorem buildStep_ok_cases {probe : String → Option ℚ} {d : ℚ} {dir : String}
    {st st1 : BuildState} {f : String} {next : Option String}
    (h : buildStep probe d dir st f next = .ok st1) :
    st1 = { st with currentImage := some f }
    ∨ st1 = emitSilent d dir { st with currentImage := some f } f
    ∨ st1 = st
    ∨ (∃ img dur, st.currentImage = some img ∧ st1 = emitAudio dir st img f dur)
    ∨ st1 = passThrough dir st := by
  unfold buildStep at h
  by_cases hp : fileSuffix f = ".png"
  · simp only [hp, if_true] at h
    by_cases hn : nextIsAudio next = true
    · simp [hn] at h
      exact Or.inl h.symm
    · simp [Bool.not_eq_true] at hn
      simp [hn] at h
      exact Or.inr (Or.inl h.symm)
  · simp only [hp, if_false, if_neg] at h
    by_cases ha : isAudioSuffix f = true
    · simp only [ha, if_true] at h
      cases hprobe : probe f with
      | none =>
        simp [hprobe] at h
        exact Or.inr (Or.inr (Or.inl h.symm))
      | some dur =>
        simp only [hprobe] at h
        cases hc : st.currentImage with
        | none => simp [hc] at h
        | some img =>
          simp [hc] at h
          exact Or.inr (Or.inr (Or.inr (Or.inl ⟨img, dur, rfl, h.symm⟩)))
    · simp only [Bool.not_eq_true] at ha
      simp [ha] at h
      exact Or.inr (Or.inr (Or.inr (Or.inr h.symm)))

/-- The lookahead of an element of `xs` inside `xs ++ ys` agrees with its
lookahead inside `xs` when the after-the-end lookahead is the head of `ys`. -/
theorem lookaheadOf_append {xs ys : List String} {la : Option String} :
    lookaheadOf (xs ++ ys) la = lookaheadOf xs (lookaheadOf ys la) := by
  cases xs with
  | nil => cases ys <;> simp [lookaheadOf]
  | cons x xs => simp [lookaheadOf]

/-- Splitting a run of the loop at a list boundary: running `xs ++ ys` is
running `xs` (with the head of `ys` visible as lookahead) and then `ys`. -/
theorem buildFrom_append {probe : String → Option ℚ} {d : ℚ} {dir : String}
    {la : Option String} (xs : List String) {ys : List String} {st : BuildState} :
    buildFrom probe d dir la st (xs ++ ys)
      = match buildFrom probe d dir (lookaheadOf ys la) st xs with
        | .error e => .error e
        | .ok st1 => buildFrom probe d dir la st1 ys := by
  induction xs generalizing st with
  | nil => simp [buildFrom]
  | cons x xs ih =>
    show buildFrom probe d dir la st (x :: (xs ++ ys)) = _
    rw [buildFrom, buildFrom, lookaheadOf_append]
    cases buildStep probe d dir st x (lookaheadOf xs (lookaheadOf ys la)) with
    | error e => rfl
    | ok st2 => exact ih

/-- A run of audio items that all fail to probe is a no-op of the loop. -/
theorem buildFrom_skip_run {probe : String → Option ℚ} {d : ℚ} {dir : String}
    {auds : List String}
    (h : ∀ a ∈ auds, isAudioSuffix a = true ∧ probe a = none) :
    ∀ {la : Option String} {st : BuildState} {rest : List String},
    buildFrom probe d dir la st (auds ++ rest) = buildFrom probe d dir la st rest := by
  induction auds with
  | nil => intro la st rest; rfl
  | cons a auds ih =>
    intro la st rest
    have ha := h a (List.mem_cons_self a auds)
    show buildFrom probe d dir la st (a :: (auds ++ rest)) = _
    rw [buildFrom_audio_skip ha.1 ha.2]
    exact ih (fun x hx => h x (List.mem_cons_of_mem a hx))

/-- Over a successful run, the manifest only grows at the tail, segments are
only appended with indices at or above the starting index, and the segment
index never decreases. -/
theorem buildFrom_mono {probe : String → Option ℚ} {d : ℚ} {dir : String} :
    ∀ {files : List String} {la : Option String} {st st' : BuildState},
    buildFrom probe d dir la st files = .ok st' →
    (∃ t, st'.manifest = st.manifest ++ t)
    ∧ (∃ u, st'.segments = st.segments ++ u ∧ ∀ s ∈ u, st.segIndex ≤ s.index)
    ∧ st.segIndex ≤ st'.segIndex := by
  intro files
  induction files with
  | nil =>
    intro la st st' h
    cases h
    exact ⟨⟨[], by simp⟩, ⟨[], by simp, by simp⟩, le_refl _⟩
  | cons f rest ih =>
    intro la st st' h
    rw [buildFrom] at h
    cases hstep : buildStep probe d dir st f (lookaheadOf rest la) with
    | error e => rw [hstep] at h; cases h
    | ok st1 =>
      rw [hstep] at h
      obtain ⟨⟨t2, ht2⟩, ⟨u2, hu2, hu2i⟩, hidx2⟩ := ih h
      have hstep1 : (∃ t, st1.manifest = st.manifest ++ t)
          ∧ (∃ u, st1.segments = st.segments ++ u ∧ ∀ s ∈ u, s.index = st.segIndex)
          ∧ st.segIndex ≤ st1.segIndex := by
        rcases buildStep_ok_cases hstep with h1 | h1 | h1 | ⟨img, dur, hc, h1⟩ | h1 <;> subst h1
        · exact ⟨⟨[], by simp⟩, ⟨[], by simp, by simp⟩, le_refl _⟩
        · exact ⟨⟨[manifestLine dir st.segIndex], rfl⟩,
            ⟨[{ kind := .silent, image := f, duration := d, index := st.segIndex }], rfl,
              by simp [emitSilent]⟩, Nat.le_succ _⟩
        · exact ⟨⟨[], by simp⟩, ⟨[], by simp, by simp⟩, le_refl _⟩
        · exact ⟨⟨[manifestLine dir st.segIndex], rfl⟩,
            ⟨[{ kind := .audio f, image := img, duration := dur, index := st.segIndex }], rfl,
              by simp [emitAudio]⟩, Nat.le_succ _⟩
        · exact ⟨⟨[manifestLine dir st.segIndex], rfl⟩,
            ⟨[], by simp [passThrough], by simp⟩, Nat.le_succ _⟩
      obtain ⟨⟨t1, ht1⟩, ⟨u1, hu1, hu1i⟩, hidx1⟩ := hstep1
      refine ⟨⟨t1 ++ t2, by rw [ht2, ht1, List.append_assoc]⟩,
        ⟨u1 ++ u2, by rw [hu2, hu1, List.append_assoc], ?_⟩, le_trans hidx1 hidx2⟩
      intro s hs
      rcases List.mem_append.mp hs with hs | hs
      · exact le_of_eq (hu1i s hs).symm
      · exact le_trans hidx1 (hu2i s hs)

/-- If `img` does not occur in the remaining items and is not the current
image, a successful run emits no segment holding `img` and never makes it
current. -/
theorem buildFrom_no_new_image_refs {probe : String → Option ℚ} {d : ℚ} {dir img : String} :
    ∀ {files : List String} {la : Option String} {st st' : BuildState},
    img ∉ files → st.currentImage ≠ some img →
    buildFrom probe d dir la st files = .ok st' →
    (∀ s ∈ st'.segments, s.image = img → s ∈ st.segments) ∧ st'.currentImage ≠ some img := by
  intro files
  induction files with
  | nil =>
    intro la st st' _ hcur h
    cases h
    exact ⟨fun s hs _ => hs, hcur⟩
  | cons f rest ih =>
    intro la st st' hmem hcur h
    have hf : f ≠ img := fun he => hmem (he ▸ List.mem_cons_self f rest)
    have hrest : img ∉ rest := fun he => hmem (List.mem_cons_of_mem f he)
    rw [buildFrom] at h
    cases hstep : buildStep probe d dir st f (lookaheadOf rest la) with
    | error e => rw [hstep] at h; cases h
    | ok st1 =>
      rw [hstep] at h
      rcases buildStep_ok_cases hstep with h1 | h1 | h1 | ⟨c, dur, hc, h1⟩ | h1 <;> subst h1
      · have hcur1 : ({ st with currentImage := some f } : BuildState).currentImage ≠ some img := by
          simpa using fun he => hf he
        exact (ih hrest hcur1 h).imp (fun hr s hs hi => hr s hs hi) id
      · have hcur1 : (emitSilent d dir { st with currentImage := some f } f).currentImage
            ≠ some img := by
          simp only [emitSilent]
          simpa using fun he => hf he
        obtain ⟨hr, hc'⟩ := ih hrest hcur1 h
        refine ⟨fun s hs hi => ?_, hc'⟩
        have := hr s hs hi
        simp only [emitSilent] at this
        rcases List.mem_append.mp this with hs1 | hs1
        · exact hs1
        · have hsf : s.image = f := by
            simpa using congrArg Segment.image (List.mem_singleton.mp hs1)
          exact absurd (hsf.symm.trans hi) hf
      · exact ih hrest hcur h
      · have hcimg : c ≠ img := fun he => hcur (he ▸ hc)
        have hcur1 : (emitAudio dir st c f dur).currentImage ≠ some img := by
          simp only [emitAudio]
          exact hcur
        obtain ⟨hr, hc'⟩ := ih hrest hcur1 h
        refine ⟨fun s hs hi => ?_, hc'⟩
        have := hr s hs hi
        simp only [emitAudio] at this
        rcases List.mem_append.mp this with hs1 | hs1
        · exact hs1
        · have hsc : s.image = c := by
            simpa using congrArg Segment.image (List.mem_singleton.mp hs1)
          exact absurd (hsc.symm.trans hi) hcimg
      · exact @ih la (passThrough dir st) st' hrest hcur h

/-- The step `emitAudio` leaves `current_image` unchanged. -/
theorem emitAudio_currentImage {dir : String} {st : BuildState} {img f : String} {dur : ℚ} :
    (emitAudio dir st img f dur).currentImage = st.currentImage := rfl

/-- While `current_image = img`, a run of audio items folds into `runAudios`. -/
theorem buildFrom_audio_run {probe : String → Option ℚ} {d : ℚ} {dir img : String} :
    ∀ {auds : List String}, (∀ a ∈ auds, isAudioSuffix a = true) →
    ∀ {la : Option String} {st : BuildState} {rest : List String},
    st.currentImage = some img →
    buildFrom probe d dir la st (auds ++ rest)
      = buildFrom probe d dir la (runAudios probe dir img st auds) rest := by
  intro auds
  induction auds with
  | nil => intro _ la st rest _; rfl
  | cons a auds ih =>
    intro h la st rest hc
    have ha : isAudioSuffix a = true := h a (List.mem_cons_self a auds)
    have h' : ∀ x ∈ auds, isAudioSuffix x = true := fun x hx => h x (List.mem_cons_of_mem a hx)
    show buildFrom probe d dir la st (a :: (auds ++ rest)) = _
    cases hp : probe a with
    | none =>
      rw [buildFrom_audio_skip ha hp, ih h' hc]
      simp [runAudios, hp]
    | some dur =>
      rw [buildFrom_audio_emit ha hp hc,
        ih h' (by rw [emitAudio_currentImage]; exact hc)]
      simp [runAudios, hp]

/-- The segments after a `runAudios` fold: the original ones followed by one
`AudioHeld` segment per successfully probed item, all holding `img`, at
consecutive indices from the starting segment index. -/
theorem runAudios_segments {probe : String → Option ℚ} {dir img : String} :
    ∀ (auds : List String) (st : BuildState),
    (runAudios probe dir img st auds).segments
      = st.segments ++ audioSegsFrom probe img st.segIndex auds := by
  intro auds
  induction auds with
  | nil => intro st; simp [runAudios, audioSegsFrom]
  | cons a auds ih =>
    intro st
    cases hp : probe a with
    | none => simp [runAudios, hp, audioSegsFrom, ih]
    | some dur =>
      simp only [runAudios, hp, audioSegsFrom]
      rw [ih]
      simp [emitAudio]

/-- The fold `runAudios` never changes the current image. -/
theorem runAudios_currentImage {probe : String → Option ℚ} {dir img : String} :
    ∀ (auds : List String) (st : BuildState),
    (runAudios probe dir img st auds).currentImage = st.currentImage := by
  intro auds
  induction auds with
  | nil => intro st; rfl
  | cons a auds ih =>
    intro st
    cases hp : probe a with
    | none => simp [runAudios, hp, ih]
    | some dur => simp [runAudios, hp, ih, emitAudio]

/-- The count `silentCountL` distributes over append. -/
theorem silentCountL_append {l1 l2 : List Segment} :
    silentCountL (l1 ++ l2) = silentCountL l1 + silentCountL l2 := by
  simp [silentCountL, List.countP_append]

/-- The sum `audioSumL` distributes over append. -/
theorem audioSumL_append {l1 l2 : List Segment} :
    audioSumL (l1 ++ l2) = audioSumL l1 + audioSumL l2 := by
  simp [audioSumL]

/-- One `SilentHold` segment counts once. -/
theorem silentCountL_silent_one {f : String} {d : ℚ} {i : Nat} :
    silentCountL [{ kind := .silent, image := f, duration := d, index := i }] = 1 := by
  simp [silentCountL]

/-- One `AudioHeld` segment counts no silent hold. -/
theorem silentCountL_audio_zero {a f : String} {d : ℚ} {i : Nat} :
    silentCountL [{ kind := .audio a, image := f, duration := d, index := i }] = 0 := by
  simp [silentCountL]

/-- One `SilentHold` segment contributes nothing to the audio sum. -/
theorem audioSumL_silent_zero {f : String} {d : ℚ} {i : Nat} :
    audioSumL [{ kind := .silent, image := f, duration := d, index := i }] = 0 := by
  simp [audioSumL]

/-- One `AudioHeld` segment contributes its probed duration. -/
theorem audioSumL_audio_dur {a f : String} {d : ℚ} {i : Nat} :
    audioSumL [{ kind := .audio a, image := f, duration := d, index := i }] = d := by
  simp [audioSumL]

/-- The loop invariant behind the total-duration decomposition: if the
accumulated total is the fixed duration times the number of `SilentHold`
segments plus the probed durations of the `AudioHeld` segments, every loop
iteration preserves this. -/
theorem buildFrom_total_eq {probe : String → Option ℚ} {d : ℚ} {dir : String} :
    ∀ {files : List String} {la : Option String} {st st' : BuildState},
    buildFrom probe d dir la st files = .ok st' →
    st.totalDuration = d * (silentCountL st.segments : ℚ) + audioSumL st.segments →
    st'.totalDuration = d * (silentCountL st'.segments : ℚ) + audioSumL st'.segments := by
  intro files
  induction files with
  | nil =>
    intro la st st' h hinv
    cases h
    exact hinv
  | cons f rest ih =>
    intro la st st' h hinv
    rw [buildFrom] at h
    cases hstep : buildStep probe d dir st f (lookaheadOf rest la) with
    | error e => rw [hstep] at h; cases h
    | ok st1 =>
      rw [hstep] at h
      refine ih h ?_
      rcases buildStep_ok_cases hstep with h1 | h1 | h1 | ⟨c, dur, hc, h1⟩ | h1 <;> subst h1
      · exact hinv
      · show st.totalDuration + d = _
        simp only [emitSilent, silentCountL_append, audioSumL_append, silentCountL_silent_one,
          audioSumL_silent_zero]
        rw [hinv]
        push_cast
        ring
      · exact hinv
      · show st.totalDuration + dur = _
        simp only [emitAudio, silentCountL_append, audioSumL_append, silentCountL_audio_zero,
          audioSumL_audio_dur]
        rw [hinv]
        push_cast
        ring
      · exact hinv

/-- Rebasing with `retime` commutes with setting the current image. -/
theorem retime_setCurrent {d2 : ℚ} {st : BuildState} {f : String} :
    retime d2 ({ st with currentImage := some f })
      = { retime d2 st with currentImage := some f } := rfl

/-- Rebasing with `retime` turns a `SilentHold` emission at duration `d` into one at the
new duration `d2`. -/
theorem retime_emitSilent {d d2 : ℚ} {dir f : String} {st : BuildState} :
    retime d2 (emitSilent d dir st f) = emitSilent d2 dir (retime d2 st) f := by
  simp only [retime, emitSilent, silentCountL_append, audioSumL_append, List.map_append,
    silentCountL_silent_one, audioSumL_silent_zero, List.map_cons, List.map_nil, setSilentDur,
    BuildState.mk.injEq]
  refine ⟨trivial, trivial, ?_, trivial, trivial⟩
  push_cast
  ring

/-- Rebasing with `retime` leaves an `AudioHeld` emission untouched apart from the already
rebased state. -/
theorem retime_emitAudio {d2 dur : ℚ} {dir img f : String} {st : BuildState} :
    retime d2 (emitAudio dir st img f dur) = emitAudio dir (retime d2 st) img f dur := by
  simp only [retime, emitAudio, silentCountL_append, audioSumL_append, List.map_append,
    silentCountL_audio_zero, audioSumL_audio_dur, List.map_cons, List.map_nil, setSilentDur,
    BuildState.mk.injEq]
  refine ⟨trivial, trivial, ?_, trivial, trivial⟩
  push_cast
  ring

/-- Rebasing with `retime` commutes with the fall-through manifest write. -/
theorem retime_passThrough {d2 : ℚ} {dir : String} {st : BuildState} :
    retime d2 (passThrough dir st) = passThrough dir (retime d2 st) := rfl

/-- Rebasing a run on a different fixed image duration `d2`: the loop takes
exactly the same branches, emits the same segments apart from `SilentHold`
durations, and accumulates the rebased total. -/
theorem buildFrom_retime {probe : String → Option ℚ} {d d2 : ℚ} {dir : String} :
    ∀ {files : List String} {la : Option String} {st : BuildState},
    buildFrom probe d2 dir la (retime d2 st) files
      = Except.map (retime d2) (buildFrom probe d dir la st files) := by
  intro files
  induction files with
  | nil => intro la st; rfl
  | cons f rest ih =>
    intro la st
    rw [buildFrom, buildFrom]
    by_cases hp : fileSuffix f = ".png"
    · by_cases hn : nextIsAudio (lookaheadOf rest la) = true
      · simp only [buildStep, hp, if_true, hn]
        rw [retime_setCurrent.symm]
        exact ih
      · simp only [Bool.not_eq_true] at hn
        simp only [buildStep, hp, if_true, hn, Bool.false_eq_true, if_false]
        rw [retime_setCurrent.symm, retime_emitSilent.symm]
        exact ih
    · by_cases ha : isAudioSuffix f = true
      · simp only [buildStep, hp, if_false, ha, if_true]
        cases hprobe : probe f with
        | none => exact ih
        | some dur =>
          have hcur : (retime d2 st).currentImage = st.currentImage := rfl
          cases hc : st.currentImage with
          | none => simp [hcur, hc, Except.map]
          | some img =>
            simp only [hcur, hc]
            rw [retime_emitAudio.symm]
            exact ih
      · simp only [Bool.not_eq_true] at ha
        simp only [buildStep, hp, if_false, ha, Bool.false_eq_true]
        rw [retime_passThrough.symm]
        exact ih

/-- When every file is an exact `.png`/`.mp3`/`.wav`, the loop preserves the
correspondence between manifest lines and emitted segments. -/
theorem buildFrom_manifest_segments {probe : String → Option ℚ} {d : ℚ} {dir : String} :
    ∀ {files : List String} {la : Option String} {st st' : BuildState},
    (∀ f ∈ files, fileSuffix f = ".png" ∨ isAudioSuffix f = true) →
    buildFrom probe d dir la st files = .ok st' →
    st.manifest = st.segments.map (fun s => manifestLine dir s.index) →
    st'.manifest = st'.segments.map (fun s => manifestLine dir s.index) := by
  intro files
  induction files with
  | nil =>
    intro la st st' _ h hinv
    cases h
    exact hinv
  | cons f rest ih =>
    intro la st st' hext h hinv
    have hrest : ∀ x ∈ rest, fileSuffix x = ".png" ∨ isAudioSuffix x = true :=
      fun x hx => hext x (List.mem_cons_of_mem f hx)
    by_cases hp : fileSuffix f = ".png"
    · by_cases hn : nextIsAudio (lookaheadOf rest la) = true
      · rw [buildFrom_png_suppress hp hn] at h
        exact ih hrest h hinv
      · rw [buildFrom_png_emit hp (Bool.not_eq_true _ ▸ hn)] at h
        refine ih hrest h ?_
        simp only [emitSilent, List.map_append, List.map_cons, List.map_nil]
        rw [hinv]
    · have ha : isAudioSuffix f = true := (hext f (List.mem_cons_self f rest)).resolve_left hp
      cases hprobe : probe f with
      | none =>
        rw [buildFrom_audio_skip ha hprobe] at h
        exact ih hrest h hinv
      | some dur =>
        cases hc : st.currentImage with
        | none =>
          rw [buildFrom] at h
          simp only [buildStep, hp, if_false, ha, if_true, hprobe, hc] at h
          exact Except.noConfusion h
        | some img =>
          rw [buildFrom_audio_emit ha hprobe hc] at h
          refine ih hrest h ?_
          simp only [emitAudio, List.map_append, List.map_cons, List.map_nil]
          rw [hinv]

/-- Unfolding the narration pass on a `.txt` item with a fresh cache
(lines 410-416): reuse the cached wav, no synthesis. -/
theorem convertPass_cons_fresh {tts : String → List Int} {contents : String → String}
    {cd : String} {now : Int} {fs : Fs} {f : String} {rest : List String}
    (ht : fileSuffix f = ".txt") (hfresh : cacheFresh fs f (wavPathOf cd f) = true) :
    convertPass tts contents cd now fs (f :: rest)
      = match convertPass tts contents cd now fs rest with
        | .error e => .error e
        | .ok (fs2, l, n) => .ok (fs2, wavPathOf cd f :: l, n) := by
  simp [convertPass, ht, hfresh]

/-- Unfolding the narration pass on a `.txt` item with a stale or missing
cache and usable text (lines 417-420): synthesize once and write the cache
file. -/
theorem convertPass_cons_miss {tts : String → List Int} {contents : String → String}
    {cd : String} {now : Int} {fs : Fs} {f : String} {rest : List String}
    (ht : fileSuffix f = ".txt") (hfresh : cacheFresh fs f (wavPathOf cd f) = false)
    (htext : pyStrip (contents f) ≠ "") (htts : tts (pyStrip (contents f)) ≠ []) :
    convertPass tts contents cd now fs (f :: rest)
      = match convertPass tts contents cd now (writeFile fs (wavPathOf cd f) now) rest with
        | .error e => .error e
        | .ok (fs2, l, n) => .ok (fs2, wavPathOf cd f :: l, n + 1) := by
  simp [convertPass, ht, hfresh, htext, htts]

/-- Unfolding the narration pass on a non-`.txt` item (line 424-425): pass the
file through unchanged. -/
theorem convertPass_cons_other {tts : String → List Int} {contents : String → String}
    {cd : String} {now : Int} {fs : Fs} {f : String} {rest : List String}
    (ht : fileSuffix f ≠ ".txt") :
    convertPass tts contents cd now fs (f :: rest)
      = match convertPass tts contents cd now fs rest with
        | .error e => .error e
        | .ok (fs2, l, n) => .ok (fs2, f :: l, n) := by
  simp [convertPass, ht]

/-- If every `.txt` item's cache entry is fresh, the narration pass performs
zero syntheses and leaves the filesystem untouched. -/
theorem convertPass_all_fresh {tts : String → List Int} {contents : String → String}
    {cd : String} {now : Int} :
    ∀ {files : List String} {fs : Fs},
    (∀ f ∈ files, fileSuffix f = ".txt" → cacheFresh fs f (wavPathOf cd f) = true) →
    ∃ l, convertPass tts contents cd now fs files = .ok (fs, l, 0) := by
  intro files
  induction files with
  | nil => intro fs _; exact ⟨[], rfl⟩
  | cons f rest ih =>
    intro fs h
    by_cases ht : fileSuffix f = ".txt"
    · obtain ⟨l, hl⟩ := ih (fun x hx hxt => h x (List.mem_cons_of_mem f hx) hxt)
      refine ⟨wavPathOf cd f :: l, ?_⟩
      rw [convertPass_cons_fresh ht (h f (List.mem_cons_self f rest) ht), hl]
    · obtain ⟨l, hl⟩ := ih (fun x hx hxt => h x (List.mem_cons_of_mem f hx) hxt)
      refine ⟨f :: l, ?_⟩
      rw [convertPass_cons_other ht, hl]

/-- Every path is either untouched by a successful narration pass or is the
cache path of some `.txt` item of the list, written with mtime `now`. -/
theorem convertPass_writes {tts : String → List Int} {contents : String → String}
    {cd : String} {now : Int} :
    ∀ {files : List String} {fs fs2 : Fs} {l : List String} {n : Nat},
    convertPass tts contents cd now fs files = .ok (fs2, l, n) →
    ∀ p, (fs2.fileExists p = fs.fileExists p ∧ fs2.mtime p = fs.mtime p)
      ∨ ((∃ g ∈ files, fileSuffix g = ".txt" ∧ p = wavPathOf cd g)
          ∧ fs2.fileExists p = true ∧ fs2.mtime p = now) := by
  intro files
  induction files with
  | nil =>
    intro fs fs2 l n h p
    cases h
    exact Or.inl ⟨rfl, rfl⟩
  | cons f rest ih =>
    intro fs fs2 l n h p
    by_cases ht : fileSuffix f = ".txt"
    · by_cases hfresh : cacheFresh fs f (wavPathOf cd f) = true
      · rw [convertPass_cons_fresh ht hfresh] at h
        cases hrec : convertPass tts contents cd now fs rest with
        | error e => rw [hrec] at h; cases h
        | ok r =>
          obtain ⟨fs3, l3, n3⟩ := r
          rw [hrec] at h
          cases h
          rcases ih hrec p with hcase | ⟨⟨g, hg, hgt, hgp⟩, he, hm⟩
          · exact Or.inl hcase
          · exact Or.inr ⟨⟨g, List.mem_cons_of_mem f hg, hgt, hgp⟩, he, hm⟩
      · rw [Bool.not_eq_true] at hfresh
        by_cases htext : pyStrip (contents f) = ""
        · simp [convertPass, ht, hfresh, htext] at h
        · by_cases htts : tts (pyStrip (contents f)) = []
          · simp [convertPass, ht, hfresh, htext, htts] at h
          · rw [convertPass_cons_miss ht hfresh htext htts] at h
            cases hrec : convertPass tts contents cd now (writeFile fs (wavPathOf cd f) now) rest with
            | error e => rw [hrec] at h; cases h
            | ok r =>
              obtain ⟨fs3, l3, n3⟩ := r
              rw [hrec] at h
              cases h
              rcases ih hrec p with ⟨he, hm⟩ | ⟨⟨g, hg, hgt, hgp⟩, he, hm⟩
              · by_cases hpw : p = wavPathOf cd f
                · refine Or.inr ⟨⟨f, List.mem_cons_self f rest, ht, hpw⟩, ?_, ?_⟩
                  · rw [he]; simp [writeFile, hpw]
                  · rw [hm]; simp [writeFile, hpw]
                · refine Or.inl ⟨?_, ?_⟩
                  · rw [he]; simp [writeFile, hpw]
                  · rw [hm]; simp [writeFile, hpw]
              · exact Or.inr ⟨⟨g, List.mem_cons_of_mem f hg, hgt, hgp⟩, he, hm⟩
    · rw [convertPass_cons_other ht] at h
      cases hrec : convertPass tts contents cd now fs rest with
      | error e => rw [hrec] at h; cases h
      | ok r =>
        obtain ⟨fs3, l3, n3⟩ := r
        rw [hrec] at h
        cases h
        rcases ih hrec p with hcase | ⟨⟨g, hg, hgt, hgp⟩, he, hm⟩
        · exact Or.inl hcase
        · exact Or.inr ⟨⟨g, List.mem_cons_of_mem f hg, hgt, hgp⟩, he, hm⟩

/-- Unfolding the freshness test into its two filesystem facts. -/
theorem cacheFresh_iff {fs : Fs} {f wav : String} :
    cacheFresh fs f wav = true ↔ fs.fileExists wav = true ∧ fs.mtime f < fs.mtime wav := by
  simp [cacheFresh]

/-- After a successful narration pass whose clock is ahead of every source
mtime and whose cache paths do not collide with source paths, every `.txt`
item in the list has a fresh cache entry. -/
theorem convertPass_fresh_after {tts : String → List Int} {contents : String → String}
    {cd : String} {now : Int} :
    ∀ {files : List String} {fs fs2 : Fs} {l : List String} {n : Nat},
    convertPass tts contents cd now fs files = .ok (fs2, l, n) →
    (∀ f ∈ files, fileSuffix f = ".txt" → fs.mtime f < now) →
    (∀ f ∈ files, ∀ g ∈ files, fileSuffix f = ".txt" → fileSuffix g = ".txt" →
      wavPathOf cd g ≠ f) →
    ∀ f ∈ files, fileSuffix f = ".txt" → cacheFresh fs2 f (wavPathOf cd f) = true := by
  intro files
  induction files with
  | nil =>
    intro fs fs2 l n _ _ _ f hf
    exact absurd hf (List.not_mem_nil f)
  | cons f0 rest ih =>
    intro fs fs2 l n h hnow hdisj f hf hft
    have hd00 : ∀ x ∈ f0 :: rest, fileSuffix x = ".txt" → fileSuffix f0 = ".txt" →
        wavPathOf cd f0 ≠ x :=
      fun x hx hxt h0t => hdisj x hx f0 (List.mem_cons_self f0 rest) hxt h0t
    by_cases ht : fileSuffix f0 = ".txt"
    · by_cases hfresh : cacheFresh fs f0 (wavPathOf cd f0) = true
      · rw [convertPass_cons_fresh ht hfresh] at h
        cases hrec : convertPass tts contents cd now fs rest with
        | error e => rw [hrec] at h; cases h
        | ok r =>
          obtain ⟨fs3, l3, n3⟩ := r
          rw [hrec] at h
          injection h with hok
          have hfs : fs3 = fs2 := congrArg Prod.fst hok
          subst hfs
          rcases List.mem_cons.mp hf with hf0 | hfr
          · subst hf0
            obtain ⟨hex, hlt⟩ := cacheFresh_iff.mp hfresh
            have hmf : fs3.mtime f = fs.mtime f := by
              rcases convertPass_writes hrec f with ⟨_, hm⟩ | ⟨⟨g, hg, hgt, hgp⟩, _, _⟩
              · exact hm
              · exact absurd hgp.symm
                  (hdisj f (List.mem_cons_self f rest) g (List.mem_cons_of_mem f hg) hft hgt)
            rcases convertPass_writes hrec (wavPathOf cd f) with ⟨hwe, hwm⟩ | ⟨_, hwe, hwm⟩
            · exact cacheFresh_iff.mpr ⟨hwe.trans hex, by rw [hmf, hwm]; exact hlt⟩
            · exact cacheFresh_iff.mpr ⟨hwe, by
                rw [hmf, hwm]
                exact hnow f (List.mem_cons_self f rest) hft⟩
          · exact ih hrec
              (fun x hx hxt => hnow x (List.mem_cons_of_mem f0 hx) hxt)
              (fun x hx g hg hxt hgt =>
                hdisj x (List.mem_cons_of_mem f0 hx) g (List.mem_cons_of_mem f0 hg) hxt hgt)
              f hfr hft
      · rw [Bool.not_eq_true] at hfresh
        by_cases htext : pyStrip (contents f0) = ""
        · simp [convertPass, ht, hfresh, htext] at h
        · by_cases htts : tts (pyStrip (contents f0)) = []
          · simp [convertPass, ht, hfresh, htext, htts] at h
          · rw [convertPass_cons_miss ht hfresh htext htts] at h
            cases hrec : convertPass tts contents cd now
                (writeFile fs (wavPathOf cd f0) now) rest with
            | error e => rw [hrec] at h; cases h
            | ok r =>
              obtain ⟨fs3, l3, n3⟩ := r
              rw [hrec] at h
              injection h with hok
              have hfs : fs3 = fs2 := congrArg Prod.fst hok
              subst hfs
              have hw0 : wavPathOf cd f0 ≠ f0 := hd00 f0 (List.mem_cons_self f0 rest) ht ht
              rcases List.mem_cons.mp hf with hf0 | hfr
              · subst hf0
                have hmf : fs3.mtime f = fs.mtime f := by
                  rcases convertPass_writes hrec f with ⟨_, hm⟩ | ⟨⟨g, hg, hgt, hgp⟩, _, _⟩
                  · rw [hm]
                    show (if f = wavPathOf cd f then now else fs.mtime f) = fs.mtime f
                    rw [if_neg (fun he => hw0 he.symm)]
                  · exact absurd hgp.symm
                      (hdisj f (List.mem_cons_self f rest) g (List.mem_cons_of_mem f hg) hft hgt)
                rcases convertPass_writes hrec (wavPathOf cd f) with ⟨hwe, hwm⟩ | ⟨_, hwe, hwm⟩
                · refine cacheFresh_iff.mpr ⟨by rw [hwe]; simp [writeFile], ?_⟩
                  rw [hmf, hwm]
                  simp [writeFile]
                  exact hnow f (List.mem_cons_self f rest) hft
                · refine cacheFresh_iff.mpr ⟨hwe, ?_⟩
                  rw [hmf, hwm]
                  exact hnow f (List.mem_cons_self f rest) hft
              · refine ih hrec ?_ ?_ f hfr hft
                · intro x hx hxt
                  have hxw : wavPathOf cd f0 ≠ x := hd00 x (List.mem_cons_of_mem f0 hx) hxt ht
                  simp only [writeFile]
                  rw [if_neg (fun he => hxw he.symm)]
                  exact hnow x (List.mem_cons_of_mem f0 hx) hxt
                · exact fun x hx g hg hxt hgt =>
                    hdisj x (List.mem_cons_of_mem f0 hx) g (List.mem_cons_of_mem f0 hg) hxt hgt
    · rw [convertPass_cons_other ht] at h
      cases hrec : convertPass tts contents cd now fs rest with
      | error e => rw [hrec] at h; cases h
      | ok r =>
        obtain ⟨fs3, l3, n3⟩ := r
        rw [hrec] at h
        injection h with hok
        have hfs : fs3 = fs2 := congrArg Prod.fst hok
        subst hfs
        rcases List.mem_cons.mp hf with hf0 | hfr
        · exact absurd (hf0 ▸ hft) ht
        · exact ih hrec
            (fun x hx hxt => hnow x (List.mem_cons_of_mem f0 hx) hxt)
            (fun x hx g hg hxt hgt =>
              hdisj x (List.mem_cons_of_mem f0 hx) g (List.mem_cons_of_mem f0 hg) hxt hgt)
            f hfr hft

/-- Rebasing a duration with `setSilentDur` never changes a segment's kind. -/
theorem setSilentDur_kind {d2 : ℚ} {s : Segment} : (setSilentDur d2 s).kind = s.kind := by
  cases s with
  | mk k i du idx => cases k <;> rfl

/-- Rebasing a duration with `setSilentDur` never changes a segment's held image. -/
theorem setSilentDur_image {d2 : ℚ} {s : Segment} : (setSilentDur d2 s).image = s.image := by
  cases s with
  | mk k i du idx => cases k <;> rfl

/-- Rebasing silent durations does not change the number of silent holds. -/
theorem silentCountL_map_setSilent {d2 : ℚ} : ∀ {l : List Segment},
    silentCountL (l.map (setSilentDur d2)) = silentCountL l := by
  intro l
  induction l with
  | nil => rfl
  | cons s l ih =>
    simp only [List.map_cons, silentCountL, List.countP_cons] at ih ⊢
    rw [ih, setSilentDur_kind]

/-- Rebasing silent durations does not change the audio-duration sum. -/
theorem audioSumL_map_setSilent {d2 : ℚ} : ∀ {l : List Segment},
    audioSumL (l.map (setSilentDur d2)) = audioSumL l := by
  intro l
  induction l with
  | nil => rfl
  | cons s l ih =>
    simp only [List.map_cons, audioSumL, List.sum_cons] at ih ⊢
    rw [ih]
    cases s with
    | mk k i du idx => cases k <;> simp [setSilentDur]

/-- Rebasing the empty initial state is a no-op. -/
theorem retime_init {d2 : ℚ} : retime d2 initState = initState := by
  simp [retime, initState, silentCountL, audioSumL]

/-!
## Claim theorems
-/

/-- C1: Silent-hold suppression with one item of lookahead.  For the resolved
media list `[001.png, 002.mp3, 003.png]` with `002.mp3` probing to 5 s and
fixed image duration 2 s, the build emits exactly the two segments
`AudioHeld(image=001.png, audio=002.mp3, duration=5)` then
`SilentHold(image=003.png, duration=2)` in that order, with total duration 7;
no `SilentHold` is emitted for `001.png` because the next item is audio. -/
theorem silent_hold_suppression_scenario_a :
    buildSegments probeA 2 "/segs" initState ["001.png", "002.mp3", "003.png"] = .ok stA
    ∧ stA.segments.length = 2 := by
  refine ⟨?_, rfl⟩
  have h : buildSegments probeA 2 "/segs" initState ["001.png", "002.mp3", "003.png"]
      = .ok { segIndex := 2, currentImage := some "003.png", totalDuration := (0 : ℚ) + 5 + 2
              segments := [{ kind := .audio "002.mp3", image := "001.png", duration := 5, index := 0 },
                           { kind := .silent, image := "003.png", duration := 2, index := 1 }]
              manifest := [manifestLine "/segs" 0, manifestLine "/segs" 1] } := rfl
  rw [h]
  norm_num [stA]

/-- C3: Audio-probe failure is recoverable and isolated.  When the probe
output strips to the empty string, to the sentinel `N/A`, or to a non-numeric
string, `get_audio_duration` yields `None`, and the loop iteration for that
audio item emits no segment, writes no concat-manifest line, does not advance
the segment index, does not abort, and simply continues with the remaining
items, so the timeline holds exactly the segments of the other items. -/
theorem audio_probe_failure_isolated (probeOut : String → String) (d : ℚ) (dir : String)
    (la : Option String) (st : BuildState) (f : String) (rest : List String)
    (hf : isAudioSuffix f = true)
    (hfail : pyStrip (probeOut f) = "" ∨ pyStrip (probeOut f) = "N/A"
      ∨ parsePyFloat (pyStrip (probeOut f)) = none) :
    get_audio_duration (probeOut f) = none
    ∧ buildFrom (fun g => get_audio_duration (probeOut g)) d dir la st (f :: rest)
        = buildFrom (fun g => get_audio_duration (probeOut g)) d dir la st rest := by
  have hnone : get_audio_duration (probeOut f) = none := by
    rcases hfail with h1 | h1 | h1 <;> simp [get_audio_duration, h1]
  exact ⟨hnone, buildFrom_audio_skip hf hnone⟩

/-- Witness for C3 at a concrete input: `002.mp3` whose probe prints `N/A`. -/
theorem audio_probe_failure_isolated_use :
    get_audio_duration (probeOutNA "002.mp3") = none
    ∧ buildFrom (fun g => get_audio_duration (probeOutNA g)) 2 "/segs" none initState
        ["002.mp3", "003.png"]
      = buildFrom (fun g => get_audio_duration (probeOutNA g)) 2 "/segs" none initState
        ["003.png"] :=
  audio_probe_failure_isolated probeOutNA 2 "/segs" none initState "002.mp3" ["003.png"]
    (by decide) (Or.inr (Or.inl (by decide)))

/-- C10: a catalogued file whose extension matches a supported kind only
case-insensitively falls through both branches of the loop: no segment is
rendered and no duration accumulated, yet the concat-manifest line for the
current segment index is still written and the index advanced, and the
skipped index never names any rendered segment. -/
theorem caseonly_extension_manifest_line (probe : String → Option ℚ) (d : ℚ)
    (dir : String) (la : Option String) (st : BuildState) (f : String) (rest : List String)
    (hcat : catalogued f = true) (hexact : fileSuffix f ∉ validExtensions) :
    buildFrom probe d dir la st (f :: rest) = buildFrom probe d dir la (passThrough dir st) rest
    ∧ (passThrough dir st).segments = st.segments
    ∧ (passThrough dir st).totalDuration = st.totalDuration
    ∧ (passThrough dir st).segIndex = st.segIndex + 1
    ∧ (passThrough dir st).manifest = st.manifest ++ [manifestLine dir st.segIndex]
    ∧ (∀ st2, buildFrom probe d dir la (passThrough dir st) rest = .ok st2 →
        (∀ s ∈ st.segments, s.index < st.segIndex) →
        manifestLine dir st.segIndex ∈ st2.manifest
        ∧ ∀ s ∈ st2.segments, s.index ≠ st.segIndex) := by
  have h1 : fileSuffix f ≠ ".png" := by
    intro he
    exact hexact (he ▸ (by simp [validExtensions]))
  have h2 : isAudioSuffix f = false := by
    rw [Bool.eq_false_iff]
    intro ha
    have := by simpa [isAudioSuffix] using ha
    rcases this with h3 | h3 <;> exact hexact (h3 ▸ (by simp [validExtensions]))
  refine ⟨buildFrom_other h1 h2, rfl, rfl, rfl, rfl, ?_⟩
  intro st2 hrun hidx
  obtain ⟨⟨t, hman⟩, ⟨u, hseg, hui⟩, _⟩ := buildFrom_mono hrun
  constructor
  · rw [hman]
    simp [passThrough]
  · intro s hs
    rw [hseg] at hs
    rcases List.mem_append.mp hs with hs1 | hs1
    · have : s ∈ st.segments := by simpa [passThrough] using hs1
      exact Nat.ne_of_lt (hidx s this)
    · have : st.segIndex + 1 ≤ s.index := hui s hs1
      omega

/-- Witness for C10 at a concrete input: `002.PNG` after one emitted
segment. -/
theorem caseonly_extension_manifest_line_use :
    buildFrom (fun _ => none) 2 "/segs" none stC10 ["002.PNG"]
      = buildFrom (fun _ => none) 2 "/segs" none (passThrough "/segs" stC10) []
    ∧ manifestLine "/segs" 1 ∈ (passThrough "/segs" stC10).manifest := by
  have h := caseonly_extension_manifest_line (fun _ => none) 2 "/segs" none stC10 "002.PNG" []
    (by decide) (by decide)
  refine ⟨h.1, ?_⟩
  have h6 := h.2.2.2.2.2 (passThrough "/segs" stC10) rfl (by decide)
  simpa [stC10] using h6.1

/-- C4 (code-bug demonstration): the catalog filter admits `002.PNG`
case-insensitively, but every downstream comparison is exact, so `002.PNG` is
not counted as an image, receives no segment, and yet produces a
concat-manifest line for a segment file that is never rendered — unlike its
lowercase counterpart `002.png`, which is counted and receives its own
`SilentHold`. -/
theorem case_insensitive_extension_divergence :
    catalogued "002.PNG" = true
    ∧ imageCount ["001.png", "002.PNG"] = 1
    ∧ buildSegments (fun _ => none) 2 "/segs" initState ["001.png", "002.PNG"]
        = .ok { segIndex := 2, currentImage := some "001.png", totalDuration := 2
                segments := [{ kind := .silent, image := "001.png", duration := 2, index := 0 }]
                manifest := [manifestLine "/segs" 0, manifestLine "/segs" 1] }
    ∧ imageCount ["001.png", "002.png"] = 2
    ∧ buildSegments (fun _ => none) 2 "/segs" initState ["001.png", "002.png"]
        = .ok { segIndex := 2, currentImage := some "002.png", totalDuration := 4
                segments := [{ kind := .silent, image := "001.png", duration := 2, index := 0 },
                             { kind := .silent, image := "002.png", duration := 2, index := 1 }]
                manifest := [manifestLine "/segs" 0, manifestLine "/segs" 1] } := by
  refine ⟨by decide, by decide, ?_, by decide, ?_⟩
  · have h : buildSegments (fun _ => none) 2 "/segs" initState ["001.png", "002.PNG"]
        = .ok { segIndex := 2, currentImage := some "001.png", totalDuration := (0 : ℚ) + 2
                segments := [{ kind := .silent, image := "001.png", duration := 2, index := 0 }]
                manifest := [manifestLine "/segs" 0, manifestLine "/segs" 1] } := rfl
    rw [h]
    norm_num
  · have h : buildSegments (fun _ => none) 2 "/segs" initState ["001.png", "002.png"]
        = .ok { segIndex := 2, currentImage := some "002.png", totalDuration := (0 : ℚ) + 2 + 2
                segments := [{ kind := .silent, image := "001.png", duration := 2, index := 0 },
                             { kind := .silent, image := "002.png", duration := 2, index := 1 }]
                manifest := [manifestLine "/segs" 0, manifestLine "/segs" 1] } := rfl
    rw [h]
    norm_num

/-- C5: Total-duration decomposition.  After the segment-building pass over
any resolved media list, the accumulated total equals the fixed duration
times the number of emitted `SilentHold` segments plus the sum of the probed
durations of the emitted `AudioHeld` segments (skipped items contribute
nothing), and re-running the pass with a different fixed duration `d2`
changes only the `SilentHold` contributions: the same segments are emitted
with the same audio durations, and the total becomes `d2 · #SilentHold +
Σ audio`. -/
theorem total_duration_decomposition (probe : String → Option ℚ) (d d2 : ℚ) (dir : String)
    (files : List String) (st2 : BuildState)
    (h : buildSegments probe d dir initState files = .ok st2) :
    st2.totalDuration = d * (silentCountL st2.segments : ℚ) + audioSumL st2.segments
    ∧ buildSegments probe d2 dir initState files = .ok (retime d2 st2)
    ∧ silentCountL (retime d2 st2).segments = silentCountL st2.segments
    ∧ audioSumL (retime d2 st2).segments = audioSumL st2.segments
    ∧ (retime d2 st2).totalDuration
        = d2 * (silentCountL st2.segments : ℚ) + audioSumL st2.segments := by
  have h0 : initState.totalDuration
      = d * (silentCountL initState.segments : ℚ) + audioSumL initState.segments := by
    simp [initState, silentCountL, audioSumL]
  refine ⟨buildFrom_total_eq h h0, ?_, ?_, ?_, rfl⟩
  · have hr := @buildFrom_retime probe d d2 dir files none initState
    rw [retime_init] at hr
    unfold buildSegments at h ⊢
    rw [h] at hr
    simpa [Except.map] using hr
  · exact silentCountL_map_setSilent
  · exact audioSumL_map_setSilent

/-- Witness for C5 at spec scenario A, rebased from 2 s to 3 s. -/
theorem total_duration_decomposition_use :
    stA.totalDuration = 2 * (silentCountL stA.segments : ℚ) + audioSumL stA.segments
    ∧ buildSegments probeA 3 "/segs" initState ["001.png", "002.mp3", "003.png"]
        = .ok (retime 3 stA) := by
  have h : buildSegments probeA 2 "/segs" initState ["001.png", "002.mp3", "003.png"]
      = .ok stA := by
    have h1 : buildSegments probeA 2 "/segs" initState ["001.png", "002.mp3", "003.png"]
        = .ok { segIndex := 2, currentImage := some "003.png", totalDuration := (0 : ℚ) + 5 + 2
                segments := [{ kind := .audio "002.mp3", image := "001.png", duration := 5, index := 0 },
                             { kind := .silent, image := "003.png", duration := 2, index := 1 }]
                manifest := [manifestLine "/segs" 0, manifestLine "/segs" 1] } := rfl
    rw [h1]
    norm_num [stA]
  have h2 := total_duration_decomposition probeA 2 3 "/segs" ["001.png", "002.mp3", "003.png"]
    stA h
  exact ⟨h2.1, h2.2.1⟩

/-- C6: Consecutive audio items share one held image.  When an image item is
followed by at least two consecutive audio items, only the first of them
suppresses the image's silent hold (the image item emits nothing at all);
every one of those audio items that probes successfully becomes an
`AudioHeld` segment holding that same image, at consecutive indices, and the
image stays `current_image` through the whole run of audio items. -/
theorem consecutive_audio_share_image (probe : String → Option ℚ) (d : ℚ) (dir : String)
    (la : Option String) (st : BuildState) (img : String) (auds post : List String)
    (himg : fileSuffix img = ".png") (h2 : 2 ≤ auds.length)
    (hauds : ∀ a ∈ auds, isAudioSuffix a = true) :
    buildFrom probe d dir la st (img :: (auds ++ post))
      = buildFrom probe d dir la
          (runAudios probe dir img { st with currentImage := some img } auds) post
    ∧ (runAudios probe dir img { st with currentImage := some img } auds).segments
        = st.segments ++ audioSegsFrom probe img st.segIndex auds
    ∧ (runAudios probe dir img { st with currentImage := some img } auds).currentImage
        = some img := by
  obtain ⟨a1, auds1, ha1⟩ : ∃ a t, auds = a :: t := by
    cases auds with
    | nil => simp at h2
    | cons a t => exact ⟨a, t, rfl⟩
  refine ⟨?_, ?_, ?_⟩
  · have hn : nextIsAudio (lookaheadOf (auds ++ post) la) = true := by
      subst ha1
      simpa [lookaheadOf, nextIsAudio] using hauds a1 (List.mem_cons_self a1 auds1)
    rw [buildFrom_png_suppress himg hn]
    exact buildFrom_audio_run hauds rfl
  · rw [runAudios_segments]
  · rw [runAudios_currentImage]

/-- Witness for C6 at a concrete input: `001.png` followed by two audio
clips probing to 5 s and 3 s, then another image. -/
theorem consecutive_audio_share_image_use :
    buildFrom probeRun 2 "/segs" none initState
        ("001.png" :: (["002.mp3", "003.mp3"] ++ ["004.png"]))
      = buildFrom probeRun 2 "/segs" none
          (runAudios probeRun "/segs" "001.png"
            { initState with currentImage := some "001.png" } ["002.mp3", "003.mp3"])
          ["004.png"]
    ∧ (runAudios probeRun "/segs" "001.png"
          { initState with currentImage := some "001.png" } ["002.mp3", "003.mp3"]).segments
        = initState.segments
          ++ audioSegsFrom probeRun "001.png" initState.segIndex ["002.mp3", "003.mp3"]
    ∧ (runAudios probeRun "/segs" "001.png"
          { initState with currentImage := some "001.png" } ["002.mp3", "003.mp3"]).currentImage
        = some "001.png" :=
  consecutive_audio_share_image probeRun 2 "/segs" none initState "001.png"
    ["002.mp3", "003.mp3"] ["004.png"] (by decide) (by decide) (by decide)

/-- C7 counterexample: a build that reaches the segment-building pass (every
file catalogued, first file an exact `.png`, no narration items, so the
resolved list is unchanged) in which the manifest holds two lines while only
one segment is emitted — the fall-through for `002.PNG` writes a line with no
segment, refuting "exactly one line per emitted segment" as universally
stated. -/
theorem manifest_contract_cex :
    (["001.png", "002.PNG"].all catalogued) = true
    ∧ fileSuffix "001.png" = ".png"
    ∧ imageCount ["001.png", "002.PNG"] = 1
    ∧ convertPass ttsOne contentsEmpty002 "generated-wav" 5 emptyFs ["001.png", "002.PNG"]
        = .ok (emptyFs, ["001.png", "002.PNG"], 0)
    ∧ buildSegments (fun _ => none) 2 "/segs" initState ["001.png", "002.PNG"]
        = .ok { segIndex := 2, currentImage := some "001.png", totalDuration := 2
                segments := [{ kind := .silent, image := "001.png", duration := 2, index := 0 }]
                manifest := [manifestLine "/segs" 0, manifestLine "/segs" 1] }
    ∧ [manifestLine "/segs" 0, manifestLine "/segs" 1].length
        ≠ [({ kind := .silent, image := "001.png", duration := 2, index := 0 } : Segment)].length := by
  refine ⟨by decide, by decide, by decide, rfl, ?_, by decide⟩
  have h : buildSegments (fun _ => none) 2 "/segs" initState ["001.png", "002.PNG"]
      = .ok { segIndex := 2, currentImage := some "001.png", totalDuration := (0 : ℚ) + 2
              segments := [{ kind := .silent, image := "001.png", duration := 2, index := 0 }]
              manifest := [manifestLine "/segs" 0, manifestLine "/segs" 1] } := rfl
  rw [h]
  norm_num

/-- C7 amended: when every file of the resolved media list bears an exact
lowercase supported extension (`.png`, `.mp3`, `.wav` — which is the shape of
every list produced by the catalog + narration-conversion passes on
lowercase-named files), the manifest holds exactly one line per emitted
segment, each of the literal form `file '<absolute-path>'` + newline for that
segment's rendered path, in emission (segment-index) order, with no lines for
suppressed images or probe-skipped audio items. -/
theorem manifest_one_line_per_segment (probe : String → Option ℚ) (d : ℚ) (dir : String)
    (files : List String) (st2 : BuildState)
    (hext : ∀ f ∈ files, fileSuffix f = ".png" ∨ isAudioSuffix f = true)
    (h : buildSegments probe d dir initState files = .ok st2) :
    st2.manifest = st2.segments.map (fun s => manifestLine dir s.index) :=
  buildFrom_manifest_segments hext h (by simp [initState])

/-- Witness for C7 (amended) at spec scenario A. -/
theorem manifest_one_line_per_segment_use :
    stA.manifest = stA.segments.map (fun s => manifestLine "/segs" s.index) := by
  have h : buildSegments probeA 2 "/segs" initState ["001.png", "002.mp3", "003.png"]
      = .ok stA := by
    have h1 : buildSegments probeA 2 "/segs" initState ["001.png", "002.mp3", "003.png"]
        = .ok { segIndex := 2, currentImage := some "003.png", totalDuration := (0 : ℚ) + 5 + 2
                segments := [{ kind := .audio "002.mp3", image := "001.png", duration := 5, index := 0 },
                             { kind := .silent, image := "003.png", duration := 2, index := 1 }]
                manifest := [manifestLine "/segs" 0, manifestLine "/segs" 1] } := rfl
    rw [h1]
    norm_num [stA]
  exact manifest_one_line_per_segment probeA 2 "/segs" ["001.png", "002.mp3", "003.png"] stA
    (by decide) h

/-- C8 counterexample: a narration item whose text strips to empty but whose
cache entry is fresh (cached wav exists, mtime 1, source mtime 0) is served
from the cache and the run completes — the freshness test (line 410) runs
before the text is ever read, so the claim "every empty narration aborts the
run" fails as universally stated. -/
theorem empty_narration_cached_cex :
    fileSuffix "002.txt" = ".txt"
    ∧ pyStrip (contentsEmpty002 "002.txt") = ""
    ∧ cacheFresh freshCacheFs "002.txt" (wavPathOf "generated-wav" "002.txt") = true
    ∧ convertPass ttsOne contentsEmpty002 "generated-wav" 9 freshCacheFs ["002.txt"]
        = .ok (freshCacheFs, [wavPathOf "generated-wav" "002.txt"], 0) := by
  exact ⟨by decide, by decide, by decide, rfl⟩

/-- C8 amended: for every narration-text item whose file content strips to
empty **and whose cache entry is not fresh** (so the synthesis path is
actually taken), the run aborts with a fatal error naming that file, and the
filesystem is left exactly as it was — in particular no audio artifact is
written for the item. -/
theorem empty_narration_fatal_on_miss (tts : String → List Int) (contents : String → String)
    (cd : String) (now : Int) (fs : Fs) (f : String) (rest : List String)
    (ht : fileSuffix f = ".txt")
    (hmiss : cacheFresh fs f (wavPathOf cd f) = false)
    (hempty : pyStrip (contents f) = "") :
    convertPass tts contents cd now fs (f :: rest)
      = .error ("Narration file is empty: " ++ f, fs) := by
  simp [convertPass, ht, hmiss, hempty]

/-- Witness for C8 (amended): an uncached, whitespace-only `002.txt`. -/
theorem empty_narration_fatal_on_miss_use :
    convertPass ttsOne contentsEmpty002 "generated-wav" 9 emptyFs ["002.txt"]
      = .error ("Narration file is empty: " ++ "002.txt", emptyFs) :=
  empty_narration_fatal_on_miss ttsOne contentsEmpty002 "generated-wav" 9 emptyFs "002.txt" []
    (by decide) (by decide) (by decide)

/-- C9 counterexample: `001.png` is immediately followed by `bad.mp3`, whose
probe fails — yet `001.png` does appear in a segment, because it stays
`current_image` and the later `good.mp3` probes successfully and holds it.
This refutes "that image appears in no segment of the Timeline" as
universally stated. -/
theorem image_vanishing_cex :
    fileSuffix "001.png" = ".png"
    ∧ isAudioSuffix "bad.mp3" = true
    ∧ probeBad "bad.mp3" = none
    ∧ buildSegments probeBad 2 "/segs" initState ["001.png", "bad.mp3", "good.mp3"]
        = .ok { segIndex := 1, currentImage := some "001.png", totalDuration := 3
                segments := [{ kind := .audio "good.mp3", image := "001.png", duration := 3, index := 0 }]
                manifest := [manifestLine "/segs" 0] }
    ∧ ({ kind := .audio "good.mp3", image := "001.png", duration := 3, index := 0 } : Segment).image
        = "001.png" := by
  refine ⟨by decide, by decide, by decide, ?_, rfl⟩
  have h : buildSegments probeBad 2 "/segs" initState ["001.png", "bad.mp3", "good.mp3"]
      = .ok { segIndex := 1, currentImage := some "001.png", totalDuration := (0 : ℚ) + 3
              segments := [{ kind := .audio "good.mp3", image := "001.png", duration := 3, index := 0 }]
              manifest := [manifestLine "/segs" 0] } := rfl
  rw [h]
  norm_num

/-- C9 amended: an image immediately followed by a run of consecutive audio
items that **all** fail to probe, where the run is followed by another image
item or by the end of the list, appears in no segment of the resulting
Timeline (assuming the image path occurs nowhere else in the list): its
silent hold is suppressed by the lookahead and every audio segment that
could have held it is skipped. -/
theorem image_vanishes_when_following_audio_fails (probe : String → Option ℚ) (d : ℚ)
    (dir : String) (pre : List String) (img : String) (auds post : List String)
    (st2 : BuildState)
    (himg : fileSuffix img = ".png")
    (hne : auds ≠ [])
    (hauds : ∀ a ∈ auds, isAudioSuffix a = true ∧ probe a = none)
    (hpost : post = [] ∨ ∃ q t, post = q :: t ∧ fileSuffix q = ".png")
    (hpre : img ∉ pre) (hnauds : img ∉ auds) (hnpost : img ∉ post)
    (h : buildSegments probe d dir initState (pre ++ img :: (auds ++ post)) = .ok st2) :
    ∀ s ∈ st2.segments, s.image ≠ img := by
  unfold buildSegments at h
  rw [buildFrom_append pre] at h
  cases hpre1 : buildFrom probe d dir (lookaheadOf (img :: (auds ++ post)) none) initState pre with
  | error e => rw [hpre1] at h; cases h
  | ok st1 =>
    rw [hpre1] at h
    replace h : buildFrom probe d dir none st1 (img :: (auds ++ post)) = .ok st2 := h
    have hinit : (initState).currentImage ≠ some img := by simp [initState]
    obtain ⟨hrefs1, hcur1⟩ := buildFrom_no_new_image_refs hpre hinit hpre1
    have hs1 : ∀ s ∈ st1.segments, s.image ≠ img := by
      intro s hs hi
      have := hrefs1 s hs hi
      simp [initState] at this
    obtain ⟨a1, auds1, ha1⟩ : ∃ a t, auds = a :: t := by
      cases auds with
      | nil => exact absurd rfl hne
      | cons a t => exact ⟨a, t, rfl⟩
    have hn : nextIsAudio (lookaheadOf (auds ++ post) none) = true := by
      subst ha1
      simpa [lookaheadOf, nextIsAudio] using (hauds a1 (List.mem_cons_self a1 auds1)).1
    rw [buildFrom_png_suppress himg hn] at h
    rw [buildFrom_skip_run hauds] at h
    rcases hpost with hp0 | ⟨q, t, hqt, hq⟩
    · subst hp0
      cases h
      exact hs1
    · subst hqt
      have hqimg : q ≠ img := fun he => hnpost (he ▸ List.mem_cons_self q t)
      have hnt : img ∉ t := fun he => hnpost (List.mem_cons_of_mem q he)
      by_cases hn2 : nextIsAudio (lookaheadOf t none) = true
      · rw [buildFrom_png_suppress hq hn2] at h
        have hcq : ({ { st1 with currentImage := some img } with currentImage := some q }
            : BuildState).currentImage ≠ some img := by
          simpa using fun he => hqimg he
        obtain ⟨hrefs2, _⟩ := buildFrom_no_new_image_refs hnt hcq h
        intro s hs hi
        exact hs1 s (hrefs2 s hs hi) hi
      · rw [buildFrom_png_emit hq (Bool.not_eq_true _ ▸ hn2)] at h
        have hcq : (emitSilent d dir
            { { st1 with currentImage := some img } with currentImage := some q } q).currentImage
            ≠ some img := by
          simp only [emitSilent]
          simpa using fun he => hqimg he
        obtain ⟨hrefs2, _⟩ := buildFrom_no_new_image_refs hnt hcq h
        intro s hs hi
        have := hrefs2 s hs hi
        simp only [emitSilent] at this
        rcases List.mem_append.mp this with hs3 | hs3
        · exact hs1 s hs3 hi
        · have hsq : s.image = q := by
            simpa using congrArg Segment.image (List.mem_singleton.mp hs3)
          exact hqimg (hsq.symm.trans hi)

/-- Witness for C9 (amended): `[001.png, bad.mp3, 003.png]` where the probe
always fails — the final Timeline holds only the silent hold of `003.png`,
so the 003 segment does not reference `001.png`. -/
theorem image_vanishes_when_following_audio_fails_use :
    ({ kind := .silent, image := "003.png", duration := 2, index := 0 } : Segment).image
      ≠ "001.png" := by
  have h : buildSegments (fun _ => none) 2 "/segs" initState
      (([] : List String) ++ "001.png" :: (["bad.mp3"] ++ ["003.png"]))
      = .ok { segIndex := 1, currentImage := some "003.png", totalDuration := (0 : ℚ) + 2
              segments := [{ kind := .silent, image := "003.png", duration := 2, index := 0 }]
              manifest := [manifestLine "/segs" 0] } := rfl
  exact image_vanishes_when_following_audio_fails (fun _ => none) 2 "/segs" [] "001.png"
    ["bad.mp3"] ["003.png"] _ (by decide) (by decide)
    (by intro a ha; rw [List.mem_singleton.mp ha]; exact ⟨by decide, rfl⟩)
    (Or.inr ⟨"003.png", [], rfl, by decide⟩) (by decide) (by decide) (by decide) h
    { kind := .silent, image := "003.png", duration := 2, index := 0 } (by simp)

/-- C2: Narration-cache freshness and idempotence.  For a narration-text item
(with usable text), reuse — the pass returning with zero synthesis
invocations and the filesystem untouched — happens iff the cached wav exists
and its mtime is strictly greater than the source's; otherwise synthesis runs
exactly once and the result is written to the cache path.  Consequently a
second build over unchanged sources (clock ahead of all source mtimes, cache
paths distinct from source paths) performs zero syntheses and leaves the
filesystem unchanged. -/
theorem narration_cache_mtime_gate (tts : String → List Int) (contents : String → String)
    (cd : String) (now now2 : Int) (fs fs1 : Fs) (files l : List String) (n : Nat)
    (h1 : convertPass tts contents cd now fs files = .ok (fs1, l, n))
    (hnow : ∀ f ∈ files, fileSuffix f = ".txt" → fs.mtime f < now)
    (hdisj : ∀ f ∈ files, ∀ g ∈ files, fileSuffix f = ".txt" → fileSuffix g = ".txt" →
      wavPathOf cd g ≠ f) :
    (∀ (g : Fs) (f : String), fileSuffix f = ".txt" →
      pyStrip (contents f) ≠ "" → tts (pyStrip (contents f)) ≠ [] →
      (convertPass tts contents cd now g [f] = .ok (g, [wavPathOf cd f], 0)
        ↔ g.fileExists (wavPathOf cd f) = true ∧ g.mtime f < g.mtime (wavPathOf cd f))
      ∧ (cacheFresh g f (wavPathOf cd f) = false →
          convertPass tts contents cd now g [f]
            = .ok (writeFile g (wavPathOf cd f) now, [wavPathOf cd f], 1)
          ∧ (writeFile g (wavPathOf cd f) now).fileExists (wavPathOf cd f) = true))
    ∧ ∃ l2, convertPass tts contents cd now2 fs1 files = .ok (fs1, l2, 0) := by
  constructor
  · intro g f ht htext htts
    refine ⟨?_, ?_⟩
    · by_cases hfresh : cacheFresh g f (wavPathOf cd f) = true
      · constructor
        · intro _
          exact cacheFresh_iff.mp hfresh
        · intro _
          rw [convertPass_cons_fresh ht hfresh]
          rfl
      · rw [Bool.not_eq_true] at hfresh
        constructor
        · intro heq
          rw [convertPass_cons_miss ht hfresh htext htts] at heq
          replace heq : Except.ok (writeFile g (wavPathOf cd f) now,
              [wavPathOf cd f], (0 : Nat) + 1) = .ok (g, [wavPathOf cd f], 0) := heq
          injection heq with heq2
          have h3 : (0 : Nat) + 1 = 0 := congrArg (fun x => x.2.2) heq2
          simp at h3
        · intro hfr
          exact absurd (cacheFresh_iff.mpr hfr) (by rw [hfresh]; simp)
    · intro hfresh
      rw [convertPass_cons_miss ht hfresh htext htts]
      exact ⟨rfl, by simp [writeFile]⟩
  · have hfresh1 : ∀ f ∈ files, fileSuffix f = ".txt" →
        cacheFresh fs1 f (wavPathOf cd f) = true :=
      convertPass_fresh_after h1 hnow hdisj
    exact convertPass_all_fresh hfresh1

/-- Witness for C2: a single uncached `001.txt`; the miss branch of the
per-item description applies, synthesizing once and writing the cache
file. -/
theorem narration_cache_mtime_gate_use :
    convertPass ttsOne contentsEmpty002 "generated-wav" 5 emptyFs ["001.txt"]
      = .ok (writeFile emptyFs (wavPathOf "generated-wav" "001.txt") 5,
          [wavPathOf "generated-wav" "001.txt"], 1)
    ∧ (writeFile emptyFs (wavPathOf "generated-wav" "001.txt") 5).fileExists
        (wavPathOf "generated-wav" "001.txt") = true :=
  ((narration_cache_mtime_gate ttsOne contentsEmpty002 "generated-wav" 5 9 emptyFs
      (writeFile emptyFs (wavPathOf "generated-wav" "001.txt") 5) ["001.txt"]
      [wavPathOf "generated-wav" "001.txt"] 1 rfl
      (by intro f hf _; rw [List.mem_singleton.mp hf]; decide)
      (by intro f hf g hg _ _; rw [List.mem_singleton.mp hf, List.mem_singleton.mp hg]; decide)).1
    emptyFs "001.txt" (by decide) (by decide) (by decide)).2 (by decide)

end Kocreator
